import Mathlib

/-!
A verification development for the tari base-node core: shallow embeddings of
the connectivity manager (`src/comms/src/connectivity/manager.rs`), the
peer-connection actor (`src/comms/src/connection_manager/peer_connection.rs`),
and a model of the mempool operations exercised by
`src/base_layer/core/tests/mempool.rs`.

Node ids are modelled as naturals (the source `NodeId` is a byte array with a
total order; only the order is relevant to the embedded code).
-/

namespace Tari

/-- Direction of a peer connection (`ConnectionDirection` in the source). -/
inductive ConnectionDirection
  | Inbound
  | Outbound
deriving DecidableEq, Repr

/-- Source `ConnectivityStatus` from `src/comms/src/connectivity/manager.rs`. -/
inductive ConnectivityStatus
  | Initializing
  | Online (n : Nat)
  | Degraded (n : Nat)
  | Offline
deriving DecidableEq, Repr

/-- Source `ConnectivityManagerActor::tie_break_existing_connection`
(`src/comms/src/connectivity/manager.rs` lines 587-609). Returns `true` if
the existing connection should close, otherwise `false` (the new connection
is closed). Arguments: our node id, the peer's node id, the direction of the
existing connection and of the new connection. -/
def tie_break_existing_connection (our_node_id peer_node_id : Nat)
    (existing_dir new_dir : ConnectionDirection) : Bool :=
  match existing_dir, new_dir with
  | .Inbound, .Inbound => true
  | .Inbound, .Outbound => peer_node_id > our_node_id
  | .Outbound, .Inbound => our_node_id > peer_node_id
  | .Outbound, .Outbound => false

/-- In a simultaneous-dial collision there are exactly two connections between
nodes `a` and `b`: the one `a` dialed and the one `b` dialed. -/
inductive CollisionConn
  | dialedByA
  | dialedByB
deriving DecidableEq, Repr

/-- The other connection of the collision pair. -/
def CollisionConn.other : CollisionConn → CollisionConn
  | .dialedByA => .dialedByB
  | .dialedByB => .dialedByA

/-- Direction of a collision connection as seen at an endpoint: the connection
an endpoint dialed is Outbound there and Inbound at the other endpoint. -/
def collisionDirAt (endpointIsA : Bool) : CollisionConn → ConnectionDirection
  | .dialedByA => if endpointIsA then .Outbound else .Inbound
  | .dialedByB => if endpointIsA then .Inbound else .Outbound

/-- The connection of the collision pair that `tie_break_existing_connection`
designates as the loser at one endpoint, given which connection is the
existing entry at that endpoint (the other is the new one). `our` and `peer`
are node ids of this endpoint and the remote endpoint; `weAreA` says whether
this endpoint is node `a`. -/
def collisionLoser (our peer : Nat) (weAreA : Bool)
    (existing : CollisionConn) : CollisionConn :=
  if tie_break_existing_connection our peer
      (collisionDirAt weAreA existing) (collisionDirAt weAreA existing.other)
  then existing
  else existing.other

/-- Source `ConnectivityManagerActor::update_connectivity_status`
(`src/comms/src/connectivity/manager.rs` lines 611-639), as a function of
`min_connectivity`, the number of connected non-client nodes `n`, the number
of connected clients `c`, and the previous status. `transition` always sets
`self.status` to the requested next status; when no `transition` call is made
(`n = 0` with clients connected) the previous status is kept. -/
def update_connectivity_status (min_peers n c : Nat)
    (prev : ConnectivityStatus) : ConnectivityStatus :=
  if n ≥ min_peers then .Online n
  else if n > 0 && n < min_peers then .Degraded n
  else if n == 0 then
    (if c == 0 then .Offline else prev)
  else prev

/-! ## Failure tracking (`ConnectivityManagerActor`) -/

/-- Connectivity events relevant to failure tracking, a slice of the source's
`ConnectivityEvent`. -/
inductive CEvent
  | PeerOffline (node_id : Nat)
  | PeerConnectFailed (node_id : Nat)
deriving DecidableEq, Repr

/-- The failure-tracking slice of `ConnectivityManagerActor` state:
`status`, the per-peer `connection_stats` map (node id to consecutive failed
attempts), the peer manager's offline flags, and the published events. -/
structure FailureTrackingState where
  status : ConnectivityStatus
  connection_stats : List (Nat × Nat)
  offline_peers : List Nat
  events : List CEvent
deriving DecidableEq, Repr

/-- Consecutive failed attempts recorded for a node id; a node with no entry
has zero (`get_connection_stat_mut` inserts `PeerConnectionStats::new()`).
Modelled from the spec: `PeerConnectionStats` (`connection_stats.rs` is not in
`src/`); the spec says `connection_stats` counts consecutive failures. -/
def failed_attempts (stats : List (Nat × Nat)) (node_id : Nat) : Nat :=
  match stats.find? (fun e => e.1 == node_id) with
  | some e => e.2
  | none => 0

/-- Source `mark_peer_failed` (`manager.rs` lines 402-406): increment the node's
consecutive-failure counter and return the new count together with the
updated stats map. Modelled from the spec:
`PeerConnectionStats::set_connection_failed` (not in `src/`) increments the
consecutive-failure count. -/
def mark_peer_failed (stats : List (Nat × Nat)) (node_id : Nat) :
    Nat × List (Nat × Nat) :=
  let n := failed_attempts stats node_id + 1
  (n, (node_id, n) :: stats.filter (fun e => !(e.1 == node_id)))

/-- Source `ConnectivityManagerActor::handle_peer_connection_failure`
(`manager.rs` lines 408-439). If the node is offline the event is ignored.
Otherwise the peer's failure counter is incremented; on reaching
`max_failures_mark_offline` the peer is marked offline in the peer manager
(`set_offline` returns whether the peer was already offline; `PeerOffline` is
published only when the state changed from online to offline) and the peer's
stats entry is removed. -/
def handle_peer_connection_failure (max_failures_mark_offline : Nat)
    (s : FailureTrackingState) (node_id : Nat) : FailureTrackingState :=
  if s.status == .Offline then s
  else
    let r := mark_peer_failed s.connection_stats node_id
    if r.1 ≥ max_failures_mark_offline then
      let was_offline := s.offline_peers.contains node_id
      { status := s.status
        connection_stats := r.2.filter (fun e => !(e.1 == node_id))
        offline_peers := if was_offline then s.offline_peers
                         else node_id :: s.offline_peers
        events := if was_offline then s.events
                  else s.events ++ [CEvent.PeerOffline node_id] }
    else { s with connection_stats := r.2 }

/-- The `PeerConnectFailed` arms of
`ConnectivityManagerActor::handle_connection_manager_event`
(`manager.rs` lines 517-531), restricted to failure tracking: a
`PeerConnectFailed` carrying `ConnectionManagerError::DialCancelled` skips
`handle_peer_connection_failure`; any other error invokes it. -/
def handle_connect_failed_event (max_failures_mark_offline : Nat)
    (s : FailureTrackingState) (node_id : Nat) (is_dial_cancelled : Bool) :
    FailureTrackingState :=
  if is_dial_cancelled then s
  else handle_peer_connection_failure max_failures_mark_offline s node_id

/-! ## Peer-connection actor (`peer_connection.rs`) -/

/-- Protocol-negotiation errors (`PeerConnectionError` slice): a failed
negotiation, or elapsing of a `time::timeout` wrapper. -/
inductive NegotiationError
  | failed
  | timedOut
deriving DecidableEq, Repr

instance {ε α : Type} [DecidableEq ε] [DecidableEq α] :
    DecidableEq (Except ε α) := fun x y =>
  match x, y with
  | .ok a, .ok b =>
      if h : a = b then .isTrue (by rw [h]) else .isFalse (by simp [h])
  | .ok _, .error _ => .isFalse (by simp)
  | .error _, .ok _ => .isFalse (by simp)
  | .error a, .error b =>
      if h : a = b then .isTrue (by rw [h]) else .isFalse (by simp [h])

/-- Notifications the actor sends on the connection-manager event channel. -/
inductive ActorNotification
  | newInboundSubstream (protocol : Nat)
  | peerDisconnected
deriving DecidableEq, Repr

/-- The observable state of `PeerConnectionActor` for these claims: the
notifications it has sent. -/
structure ActorState where
  notifications : List ActorNotification
deriving DecidableEq, Repr

/-- Semantics of `tokio::time::timeout(limit, fut)`: the future's outcome stands if it
completes within `limit` seconds, otherwise the result is a timeout error. -/
def timeoutWrap (limit duration : Nat)
    (outcome : Except NegotiationError Nat) : Except NegotiationError Nat :=
  if limit < duration then .error .timedOut else outcome

/-- Source constant `PROTOCOL_NEGOTIATION_TIMEOUT` (`peer_connection.rs` line 446). -/
def PROTOCOL_NEGOTIATION_TIMEOUT : Nat := 10

/-- Source `PeerConnectionActor::open_negotiated_protocol_stream`
(`peer_connection.rs` lines 442-468): if the peer is known to support the
protocol the optimistic negotiation is used, otherwise the pessimistic
(offer-list) form; either call is wrapped in
`time::timeout(PROTOCOL_NEGOTIATION_TIMEOUT, fut)`. `duration` is how long
the negotiation future runs; `optimistic`/`pessimistic` are the outcomes the
respective negotiations would produce. -/
def open_negotiated_protocol_stream (their_supported_protocols : List Nat)
    (protocol : Nat) (duration : Nat)
    (optimistic pessimistic : Except NegotiationError Nat) :
    Except NegotiationError Nat :=
  if their_supported_protocols.contains protocol then
    timeoutWrap PROTOCOL_NEGOTIATION_TIMEOUT duration optimistic
  else
    timeoutWrap PROTOCOL_NEGOTIATION_TIMEOUT duration pessimistic

/-- Source `PeerConnectionActor::handle_incoming_substream`
(`peer_connection.rs` lines 426-439): the inbound negotiation future is
awaited directly with no `time::timeout` wrapper (`duration` does not affect
the outcome); on success a `NewInboundSubstream` notification is sent, on
error nothing is sent (the caller logs and drops the substream). -/
def handle_incoming_substream (s : ActorState) (duration : Nat)
    (outcome : Except NegotiationError Nat) : ActorState :=
  match duration, outcome with
  | _, .error _ => s
  | _, .ok protocol =>
      { s with notifications :=
          s.notifications ++ [ActorNotification.newInboundSubstream protocol] }

/-- Source `PeerConnectionRequest` (`peer_connection.rs` lines 114-123). For
`OpenSubstream`, the negotiation's running time and would-be outcomes are
carried as scenario data. -/
inductive MPeerConnectionRequest
  | openSubstream (protocol : Nat) (duration : Nat)
      (optimistic pessimistic : Except NegotiationError Nat)
  | disconnect (silent : Bool)
deriving DecidableEq, Repr

/-- Source `PeerConnectionActor::handle_request` (`peer_connection.rs` lines
394-423): `OpenSubstream` runs `open_negotiated_protocol_stream` and replies
on the oneshot (no connection-manager notification); `Disconnect` closes the
transport and, unless silent, sends `PeerDisconnected`. Neither arm breaks
the actor loop. -/
def handle_request (s : ActorState) : MPeerConnectionRequest → ActorState
  | .openSubstream _ _ _ _ => s
  | .disconnect silent =>
      if silent then s
      else { s with notifications :=
              s.notifications ++ [ActorNotification.peerDisconnected] }

/-- One wake-up of the `tokio::select!` loop in `PeerConnectionActor::run`
(`peer_connection.rs` lines 347-392): a request arrived, the request channel
closed (all handles dropped), an inbound substream arrived (with the result
of its protocol negotiation), or the inbound substream stream closed. -/
inductive LoopEvent
  | request (r : MPeerConnectionRequest)
  | requestChannelClosed
  | inboundSubstream (duration : Nat) (outcome : Except NegotiationError Nat)
  | inboundStreamClosed
deriving DecidableEq, Repr

/-- One iteration of the `PeerConnectionActor::run` loop: returns the new
state and `true` if the loop continues, `false` if it breaks. The only
`break` statements are in the `None` arms of the two channels; an error from
`handle_incoming_substream` is logged and the loop continues. -/
def actorStep (s : ActorState) : LoopEvent → ActorState × Bool
  | .request r => (handle_request s r, true)
  | .requestChannelClosed => (s, false)
  | .inboundSubstream duration outcome =>
      (handle_incoming_substream s duration outcome, true)
  | .inboundStreamClosed => (s, false)

/-! ## Mempool (insert / process_published_block)

The mempool implementation (`Mempool`, its validators and sub-pools) is not
under `src/`; only its integration tests
(`src/base_layer/core/tests/mempool.rs`) are. The operations below are
modelled from the spec (section 4.1), with the time-lock admissibility
threshold fixed by spec scenario 2 and `test_time_locked` (tip = 1 admits a
kernel lock-height of 2, so admissibility is against the next block's
height, tip + 1). -/

/-- Storage responses `TxStorageResponse` (spec section 4.1). -/
inductive TxStorageResponse
  | UnconfirmedPool
  | ReorgPool
  | NotStored
  | NotStoredOrphan
  | NotStoredTimeLocked
  | NotStoredAlreadySpent
  | NotStoredConsensus
deriving DecidableEq, Repr

/-- A transaction as the mempool model sees it: the kernel excess signature
(primary key), input commitments, output commitments, the kernel lock-height,
and fee/weight. Modelled from the spec: section 3's data model. -/
structure MempoolTx where
  sig : Nat
  inputs : List Nat
  outputsC : List Nat
  lockHeight : Nat
  fee : Nat
  weight : Nat
deriving DecidableEq, Repr

/-- The blockchain view the stateful validator consults: the current tip
height and the unspent chain UTXOs, each a commitment with its maturity.
Modelled from the spec: section 6's blockchain DB adapter. -/
structure ChainView where
  tipHeight : Nat
  utxos : List (Nat × Nat)
deriving DecidableEq, Repr

/-- The two sub-pools relevant to the claims; a Reorg entry is tagged with
the height of its confirming block. Modelled from the spec: section 3. -/
structure MempoolState where
  unconfirmed : List MempoolTx
  reorg : List (MempoolTx × Nat)
deriving DecidableEq, Repr

/-- Lookup `has_tx_with_excess_sig` (spec section 4.1). -/
def has_tx_with_excess_sig (st : MempoolState) (sig : Nat) :
    TxStorageResponse :=
  if st.unconfirmed.any (fun t => t.sig == sig) then .UnconfirmedPool
  else if st.reorg.any (fun e => e.1.sig == sig) then .ReorgPool
  else .NotStored

/-- Every input is an unspent chain UTXO or an output of a transaction
already in Unconfirmed. Modelled from the spec: section 4.1 step 3, first
bullet. -/
def inputsSatisfied (chain : ChainView) (st : MempoolState)
    (tx : MempoolTx) : Bool :=
  tx.inputs.all (fun i =>
    chain.utxos.any (fun u => u.1 == i) ||
    st.unconfirmed.any (fun t => t.outputsC.contains i))

/-- Every input drawn from the chain has maturity at most the current tip
height. Modelled from the spec: section 4.1 step 3, second bullet. -/
def inputMaturityOk (chain : ChainView) (tx : MempoolTx) : Bool :=
  tx.inputs.all (fun i =>
    match chain.utxos.find? (fun u => u.1 == i) with
    | some u => u.2 ≤ chain.tipHeight
    | none => true)

/-- Operation `Mempool::insert` (spec section 4.1); the cap-overflow eviction of step 4
is out of scope of the claims (they quantify over transactions passing all
other checks) and is not modelled. Modelled from the spec: step 1 returns the
current state when the signature is already present; step 3 returns
`NotStoredOrphan` for an unsatisfiable input, `NotStored` for an immature
input, and `NotStoredTimeLocked` for a kernel lock-height that is not
admissible at the next block height (tip + 1, as fixed by spec scenario 2 and
`test_time_locked`); otherwise the transaction joins Unconfirmed. -/
def mempool_insert (chain : ChainView) (st : MempoolState) (tx : MempoolTx) :
    TxStorageResponse × MempoolState :=
  if has_tx_with_excess_sig st tx.sig != .NotStored then
    (has_tx_with_excess_sig st tx.sig, st)
  else if !inputsSatisfied chain st tx then (.NotStoredOrphan, st)
  else if !inputMaturityOk chain tx then (.NotStored, st)
  else if tx.lockHeight > chain.tipHeight + 1 then (.NotStoredTimeLocked, st)
  else (.UnconfirmedPool, { st with unconfirmed := st.unconfirmed ++ [tx] })

/-- A published block, as the mempool sees it: its height, the excess
signatures of its kernels, and the input commitments it spends. Modelled
from the spec: section 3's block and section 4.1's algorithmic notes. -/
structure PublishedBlock where
  height : Nat
  kernelSigs : List Nat
  spentInputs : List Nat
deriving DecidableEq, Repr

/-- Operation `Mempool::process_published_block` (spec section 4.1): every Unconfirmed
entry whose kernel signature appears in the block moves to the Reorg pool
tagged with the block's height; of the remaining Unconfirmed entries, any
with an input double-spent by the block is removed from Unconfirmed and
also placed in the Reorg pool, as pinned by
`block_event_and_reorg_event_handling`
(`src/base_layer/core/tests/mempool.rs` lines 1185-1216: after block B2A is
published the double-spent `tx2b`/`tx3b` have status `ReorgPool`); the rest
stay. Modelled from the spec: `Mempool::process_published_block` is not
under `src/` (the spec's "move to NotStored (i.e., delete)" wording for
double spends is overridden by the cited test; the final note about
re-promoting Reorg entries is a no-op for the block just added and is not
modelled). -/
def process_published_block (b : PublishedBlock) (st : MempoolState) :
    MempoolState :=
  let published := st.unconfirmed.filter (fun t => b.kernelSigs.contains t.sig)
  let remaining := st.unconfirmed.filter
    (fun t => !(b.kernelSigs.contains t.sig))
  let doubleSpent := remaining.filter
    (fun t => t.inputs.any (fun i => b.spentInputs.contains i))
  let kept := remaining.filter
    (fun t => !(t.inputs.any (fun i => b.spentInputs.contains i)))
  { unconfirmed := kept
    reorg := st.reorg ++ (published ++ doubleSpent).map (fun t => (t, b.height)) }

/-! ## Mempool retrieve (block packing)

Modelled from the spec (section 4.1, `retrieve(target_weight)`): traverse
Unconfirmed entries in descending fee-per-gram with insertion-order
tie-break; for each candidate all in-pool ancestor dependencies must be
selected with it, and if selecting the candidate together with its not yet
selected dependency chain would overflow the target weight, the entire chain
is skipped as a unit. -/

/-- An Unconfirmed sub-pool entry as `retrieve` sees it: the kernel excess
signature, fee, weight, and the signatures of the in-pool transactions whose
outputs it spends (spec section 3's `dependencies`). Modelled from the
spec: section 3's sub-pool entry. -/
structure PoolEntry where
  sig : Nat
  fee : Nat
  weight : Nat
  depends : List Nat
deriving DecidableEq, Repr

/-- Look up a pool entry by signature. -/
def findEntry (pool : List PoolEntry) (s : Nat) : Option PoolEntry :=
  pool.find? (fun e => e.sig == s)

/-- Weight of the entry with the given signature (0 when absent). -/
def sigWeight (pool : List PoolEntry) (s : Nat) : Nat :=
  match findEntry pool s with
  | some e => e.weight
  | none => 0

/-- Fee-per-gram priority: fee divided by weight, rounded down (spec
section 3). -/
def feePerGram (e : PoolEntry) : Nat := e.fee / e.weight

/-- The dependencies of the entry with signature `s` that are themselves in
the pool. -/
def inPoolDeps (pool : List PoolEntry) (s : Nat) : List Nat :=
  match findEntry pool s with
  | some e => e.depends.filter (fun d => (findEntry pool d).isSome)
  | none => []

/-- Total weight of a selection of signatures. -/
def totalWeight (pool : List PoolEntry) (l : List Nat) : Nat :=
  (l.map (sigWeight pool)).sum

/-- Stable insertion into a list kept in descending fee-per-gram order: the
new entry is placed before the first strictly lower-priority entry, so
equal-priority entries keep their insertion order. -/
def prioInsert (e : PoolEntry) : List PoolEntry → List PoolEntry
  | [] => [e]
  | x :: xs =>
      if feePerGram x < feePerGram e then e :: x :: xs
      else x :: prioInsert e xs

/-- The candidate traversal order: descending fee-per-gram, ties broken by
insertion order (the pool list is in insertion order). -/
def prioSort (pool : List PoolEntry) : List PoolEntry :=
  pool.foldl (fun acc e => prioInsert e acc) []

/-- Expand the targets `ts` into the list of not yet selected signatures
that must join the selection so that every target and every in-pool ancestor
of a target is selected, parents preceding children. `sel` is the current
selection; the result lists only the new signatures, in dependency order.
`fuel` bounds the recursion; a cycle (impossible in the dependency DAG of a
real pool) exhausts it and yields `none`, and the candidate is skipped. -/
def chainForList (pool : List PoolEntry) :
    Nat → List Nat → List Nat → Option (List Nat)
  | 0, _, _ => none
  | _ + 1, _, [] => some []
  | fuel + 1, sel, s :: rest =>
    if s ∈ sel then chainForList pool fuel sel rest
    else
      match chainForList pool fuel sel (inPoolDeps pool s) with
      | none => none
      | some anc =>
        match chainForList pool fuel (sel ++ anc ++ [s]) rest with
        | none => none
        | some more => some (anc ++ s :: more)

/-- Ample fuel for any acyclic dependency expansion over the pool. -/
def chainFuel (pool : List PoolEntry) : Nat :=
  ((pool.map (fun e => e.depends.length + 1)).sum + 1) * (pool.length + 1)

/-- The candidate loop of `retrieve`: for each candidate in priority order,
compute the dependency chain it needs; select chain and candidate together
when they fit in the remaining weight budget, otherwise skip them as a
unit. -/
def retrieveGo (pool : List PoolEntry) (target_weight : Nat) :
    List PoolEntry → List Nat → List Nat
  | [], sel => sel
  | c :: rest, sel =>
    match chainForList pool (chainFuel pool) sel [c.sig] with
    | none => retrieveGo pool target_weight rest sel
    | some l =>
      if totalWeight pool (sel ++ l) ≤ target_weight then
        retrieveGo pool target_weight rest (sel ++ l)
      else retrieveGo pool target_weight rest sel

/-- Operation `Mempool::retrieve(target_weight)` over the Unconfirmed pool, returning
the selected signatures in selection order. Modelled from the spec:
section 4.1. -/
def retrieve (pool : List PoolEntry) (target_weight : Nat) : List Nat :=
  retrieveGo pool target_weight (prioSort pool) []

/-- Closedness predicate `depClosedB pool sel l`: every element of `l` has all of its in-pool
dependencies inside `sel` or earlier in `l` — parents precede children
relative to the already-selected context `sel`. -/
def depClosedB (pool : List PoolEntry) : List Nat → List Nat → Bool
  | _, [] => true
  | sel, x :: xs =>
      (inPoolDeps pool x).all (fun d => decide (d ∈ sel)) &&
      depClosedB pool (sel ++ [x]) xs

/-! ## Theorems -/

/-- C1: with our node id `o` and the peer's node id `p`, the duplicate-
connection tie-break closes the existing connection exactly when: existing
Inbound and new Inbound (always); existing Inbound and new Outbound with
`o < p`; existing Outbound and new Inbound with `o > p`; and never when both
are Outbound. -/
theorem tie_break_existing_connection_cases (o p : Nat)
    (dE dN : ConnectionDirection) :
    tie_break_existing_connection o p dE dN = true ↔
      (dE = .Inbound ∧ dN = .Inbound) ∨
      (dE = .Inbound ∧ dN = .Outbound ∧ o < p) ∨
      (dE = .Outbound ∧ dN = .Inbound ∧ p < o) := by
  cases dE <;> cases dN <;> simp [tie_break_existing_connection]

/-- C2: for distinct node ids `a` and `b` in a simultaneous-dial collision,
the tie-break evaluated at endpoint `a` and the tie-break evaluated at
endpoint `b` (with the directions each endpoint sees) designate the same
connection of the pair as the loser, whichever connection is the existing
entry at either endpoint. -/
theorem tie_break_symmetric (a b : Nat) (h : a ≠ b)
    (e₁ e₂ : CollisionConn) :
    collisionLoser a b true e₁ = collisionLoser b a false e₂ := by
  rcases Nat.lt_or_ge a b with hab | hab
  · cases e₁ <;> cases e₂ <;>
      simp [collisionLoser, collisionDirAt, CollisionConn.other,
        tie_break_existing_connection, hab, Nat.not_lt.mpr (Nat.le_of_lt hab),
        Nat.lt_irrefl]
  · have hba : b < a := Nat.lt_of_le_of_ne hab (fun hc => h hc.symm)
    cases e₁ <;> cases e₂ <;>
      simp [collisionLoser, collisionDirAt, CollisionConn.other,
        tie_break_existing_connection, hba, Nat.not_lt.mpr (Nat.le_of_lt hba),
        Nat.lt_irrefl]

/-- Witness for C2 at node ids 1 and 2 with opposite existing entries. -/
theorem tie_break_symmetric_witness :
    collisionLoser 1 2 true CollisionConn.dialedByA =
      collisionLoser 2 1 false CollisionConn.dialedByB :=
  tie_break_symmetric 1 2 (by decide) _ _

/-- C6 counterexample: with `min_connectivity = 0`, zero connected nodes and
zero connected clients, the status recomputation yields `Online 0` (the
first match arm, `n >= min_peers`, applies), not `Offline` as the claim
requires for `n = 0 ∧ c = 0`. -/
theorem update_connectivity_status_counterexample :
    update_connectivity_status 0 0 0 ConnectivityStatus.Initializing =
      ConnectivityStatus.Online 0 ∧
    ConnectivityStatus.Online 0 ≠ ConnectivityStatus.Offline := by decide

/-- C6 (amended): provided `min_connectivity ≥ 1`, the recomputed status is
`Online n` when `n ≥ m`, `Degraded n` when `0 < n < m`, `Offline` when
`n = 0 ∧ c = 0`, and the previous status when `n = 0 ∧ c > 0`. -/
theorem update_connectivity_status_cases (m n c : Nat)
    (prev : ConnectivityStatus) (hm : 1 ≤ m) :
    (n ≥ m → update_connectivity_status m n c prev = .Online n) ∧
    (0 < n → n < m → update_connectivity_status m n c prev = .Degraded n) ∧
    (n = 0 → c = 0 → update_connectivity_status m n c prev = .Offline) ∧
    (n = 0 → 0 < c → update_connectivity_status m n c prev = prev) := by
  unfold update_connectivity_status
  refine ⟨fun h1 => ?_, fun h1 h2 => ?_, fun h1 h2 => ?_, fun h1 h2 => ?_⟩ <;>
    (split_ifs <;> simp_all <;> omega)

/-- Witness for C6 (amended) at `m = 1`, `n = 0`, `c = 0`. -/
theorem update_connectivity_status_cases_witness :
    update_connectivity_status 1 0 0 ConnectivityStatus.Initializing =
      ConnectivityStatus.Offline :=
  (update_connectivity_status_cases 1 0 0 ConnectivityStatus.Initializing
    (by decide)).2.2.1 rfl rfl

/-- C10: while the connectivity status is `Offline`, handling a peer
connection failure is a no-op on failure tracking: the per-peer counters,
the peer manager's offline flags, and the published events are all
unchanged. -/
theorem handle_peer_connection_failure_offline_noop
    (max_failures : Nat) (s : FailureTrackingState) (n : Nat)
    (h : s.status = .Offline) :
    (handle_peer_connection_failure max_failures s n).connection_stats =
      s.connection_stats ∧
    (handle_peer_connection_failure max_failures s n).offline_peers =
      s.offline_peers ∧
    (handle_peer_connection_failure max_failures s n).events = s.events := by
  unfold handle_peer_connection_failure
  simp [h]

/-- Witness for C10: an offline node ignores a failure event for peer 7. -/
theorem handle_peer_connection_failure_offline_noop_witness :
    (handle_peer_connection_failure 3
        ⟨.Offline, [(7, 1)], [], []⟩ 7).connection_stats = [(7, 1)] ∧
    (handle_peer_connection_failure 3
        ⟨.Offline, [(7, 1)], [], []⟩ 7).offline_peers = [] ∧
    (handle_peer_connection_failure 3
        ⟨.Offline, [(7, 1)], [], []⟩ 7).events = [] :=
  handle_peer_connection_failure_offline_noop 3
    ⟨.Offline, [(7, 1)], [], []⟩ 7 rfl

/-- C8: a protocol-negotiation error on an inbound substream never
terminates the peer-connection actor (the state is unchanged — the
substream is dropped without a notification — and the loop continues), and
the loop ends exactly when the handle request channel closes or the inbound
substream stream closes. -/
theorem actor_negotiation_error_nonfatal (s : ActorState) (e : LoopEvent) :
    (∀ (d : Nat) (err : NegotiationError),
      actorStep s (.inboundSubstream d (.error err)) = (s, true)) ∧
    ((actorStep s e).2 = false ↔
      e = .requestChannelClosed ∨ e = .inboundStreamClosed) := by
  constructor
  · intro d err
    simp [actorStep, handle_incoming_substream]
  · cases e <;> simp [actorStep]

/-- C9 counterexample: an inbound substream whose protocol negotiation runs
for 11 seconds (beyond the supposed 10-second limit) still succeeds and
publishes `NewInboundSubstream` — `handle_incoming_substream` applies no
timeout — refuting the claim that every negotiation fails after 10
seconds. -/
theorem inbound_negotiation_no_timeout_counterexample :
    handle_incoming_substream ⟨[]⟩ 11 (.ok 5) =
      ⟨[ActorNotification.newInboundSubstream 5]⟩ ∧
    PROTOCOL_NEGOTIATION_TIMEOUT < 11 := by decide

/-- C9 (amended): outbound substream negotiation — optimistic and
pessimistic alike — is under the 10-second `PROTOCOL_NEGOTIATION_TIMEOUT`
and fails once the negotiation runs longer; inbound negotiation is applied
no timeout at its call site (its outcome is independent of how long it
runs). -/
theorem outbound_negotiation_timeout (their_supported : List Nat)
    (protocol d : Nat) (optimistic pessimistic : Except NegotiationError Nat)
    (s : ActorState) (hd : PROTOCOL_NEGOTIATION_TIMEOUT < d) :
    open_negotiated_protocol_stream their_supported protocol d
      optimistic pessimistic = .error .timedOut ∧
    (∀ outcome, handle_incoming_substream s d outcome =
      handle_incoming_substream s 0 outcome) := by
  constructor
  · unfold open_negotiated_protocol_stream timeoutWrap
    split <;> simp [hd]
  · intro outcome
    cases outcome <;> rfl

/-- Witness for C9 (amended): an 11-second optimistic negotiation times
out. -/
theorem outbound_negotiation_timeout_witness :
    open_negotiated_protocol_stream [3] 3 11 (.ok 3) (.ok 3) =
      .error .timedOut :=
  (outbound_negotiation_timeout [3] 3 11 (.ok 3) (.ok 3) ⟨[]⟩ (by decide)).1

/-- Marking a peer failed records one more consecutive failure for it. -/
theorem failed_attempts_mark (stats : List (Nat × Nat)) (n : Nat) :
    (mark_peer_failed stats n).1 = failed_attempts stats n + 1 ∧
    failed_attempts (mark_peer_failed stats n).2 n =
      failed_attempts stats n + 1 := by
  refine ⟨rfl, ?_⟩
  unfold mark_peer_failed failed_attempts
  rw [List.find?_cons_of_pos _ (by simp)]

/-- Removing a peer's stats entry resets its recorded failures to zero. -/
theorem failed_attempts_erase (l : List (Nat × Nat)) (n : Nat) :
    failed_attempts (l.filter (fun e => !(e.1 == n))) n = 0 := by
  unfold failed_attempts
  rw [List.find?_eq_none.mpr]
  intro x hx
  have hx2 := (List.mem_filter.mp hx).2
  simp at hx2
  simp [hx2]

/-- C7 counterexample: with the connectivity status `Offline`, a
`PeerConnectFailed` event with a non-cancellation error leaves peer 7's
consecutive-failure counter at 0 instead of incrementing it to 1, refuting
"every `PeerConnectFailed` event whose error is not `DialCancelled`
increments that peer's consecutive-failure counter". -/
theorem handle_connect_failed_offline_counterexample :
    failed_attempts (handle_connect_failed_event 3
        ⟨.Offline, [], [], []⟩ 7 false).connection_stats 7 = 0 ∧
    (0 : Nat) ≠ 1 := by decide

/-- C7 (amended): while the connectivity status is not `Offline`, a
`PeerConnectFailed` whose error is not `DialCancelled` increments the peer's
consecutive-failure counter; when the counter reaches
`max_failures_mark_offline` the peer is marked offline in the peer manager,
a `PeerOffline` event is published exactly on the online-to-offline
transition, and the peer's counter is cleared; a `PeerConnectFailed`
carrying `DialCancelled` never changes the state. -/
theorem handle_connect_failed_tracking (max_failures : Nat)
    (s : FailureTrackingState) (n : Nat) (h : s.status ≠ .Offline) :
    (failed_attempts s.connection_stats n + 1 < max_failures →
      failed_attempts
          (handle_connect_failed_event max_failures s n false).connection_stats
          n = failed_attempts s.connection_stats n + 1 ∧
      (handle_connect_failed_event max_failures s n false).offline_peers =
        s.offline_peers ∧
      (handle_connect_failed_event max_failures s n false).events =
        s.events) ∧
    (failed_attempts s.connection_stats n + 1 ≥ max_failures →
      failed_attempts
          (handle_connect_failed_event max_failures s n false).connection_stats
          n = 0 ∧
      n ∈ (handle_connect_failed_event max_failures s n false).offline_peers ∧
      (n ∉ s.offline_peers →
        (handle_connect_failed_event max_failures s n false).events =
          s.events ++ [CEvent.PeerOffline n]) ∧
      (n ∈ s.offline_peers →
        (handle_connect_failed_event max_failures s n false).events =
          s.events)) ∧
    (∀ s₂ : FailureTrackingState,
      handle_connect_failed_event max_failures s₂ n true = s₂) := by
  have hstat : (s.status == ConnectivityStatus.Offline) = false := by
    simpa using h
  refine ⟨fun hlt => ?_, fun hge => ?_, fun s₂ => rfl⟩
  · have hnot : ¬((mark_peer_failed s.connection_stats n).1 ≥ max_failures) := by
      rw [(failed_attempts_mark s.connection_stats n).1]
      omega
    simp only [handle_connect_failed_event, handle_peer_connection_failure,
      Bool.false_eq_true, if_false, hstat, if_neg hnot]
    refine ⟨(failed_attempts_mark s.connection_stats n).2, ?_, ?_⟩ <;> trivial
  · have hyes : (mark_peer_failed s.connection_stats n).1 ≥ max_failures := by
      rw [(failed_attempts_mark s.connection_stats n).1]
      omega
    simp only [handle_connect_failed_event, handle_peer_connection_failure,
      Bool.false_eq_true, if_false, hstat, if_pos hyes]
    refine ⟨failed_attempts_erase _ n, ?_, fun hno => ?_, fun hyes2 => ?_⟩
    · by_cases hm : n ∈ s.offline_peers <;> simp [hm]
    · simp [hno]
    · simp [hyes2]

/-- Witness for C7 (amended): peer 7 at one prior failure, threshold 2, node
not offline: the second failure marks peer 7 offline, publishes
`PeerOffline`, and clears the counter. -/
theorem handle_connect_failed_tracking_witness :
    failed_attempts (handle_connect_failed_event 2
        ⟨.Online 5, [(7, 1)], [], []⟩ 7 false).connection_stats 7 = 0 ∧
    7 ∈ (handle_connect_failed_event 2
        ⟨.Online 5, [(7, 1)], [], []⟩ 7 false).offline_peers ∧
    (handle_connect_failed_event 2
        ⟨.Online 5, [(7, 1)], [], []⟩ 7 false).events =
      [CEvent.PeerOffline 7] :=
  by
    have h := (handle_connect_failed_tracking 2
      ⟨.Online 5, [(7, 1)], [], []⟩ 7 (by decide)).2.1 (by decide)
    exact ⟨h.1, h.2.1, by simpa using h.2.2.1 (by decide)⟩

/-- C3 counterexample: at tip height 1, a transaction with kernel
lock-height 2 passing all other checks is admitted to the Unconfirmed pool
(as in spec scenario 2 and `test_time_locked`), although its lock-height
exceeds the tip height — refuting "returns `NotStoredTimeLocked` whenever
its kernel lock-height exceeds the current tip height". -/
theorem mempool_insert_timelock_counterexample :
    (mempool_insert ⟨1, [(10, 0)]⟩ ⟨[], []⟩ ⟨1, [10], [20], 2, 20, 1⟩).1 =
      TxStorageResponse.UnconfirmedPool ∧
    (2 : Nat) > 1 ∧
    TxStorageResponse.UnconfirmedPool ≠
      TxStorageResponse.NotStoredTimeLocked := by decide

/-- C3 (amended): for a transaction passing all other checks, mempool insert
admits it to the Unconfirmed pool exactly when its kernel lock-height is at
most the next block height (tip + 1), and returns `NotStoredTimeLocked`
exactly when the lock-height exceeds tip + 1; consequently no Unconfirmed
entry's kernel lock-height exceeds tip + 1. -/
theorem mempool_insert_timelock (chain : ChainView) (st : MempoolState)
    (tx : MempoolTx)
    (hsig : has_tx_with_excess_sig st tx.sig = .NotStored)
    (hin : inputsSatisfied chain st tx = true)
    (hmat : inputMaturityOk chain tx = true)
    (hinv : ∀ t ∈ st.unconfirmed, t.lockHeight ≤ chain.tipHeight + 1) :
    ((mempool_insert chain st tx).1 = .NotStoredTimeLocked ↔
      chain.tipHeight + 1 < tx.lockHeight) ∧
    ((mempool_insert chain st tx).1 = .UnconfirmedPool ↔
      tx.lockHeight ≤ chain.tipHeight + 1) ∧
    ∀ t ∈ (mempool_insert chain st tx).2.unconfirmed,
      t.lockHeight ≤ chain.tipHeight + 1 := by
  unfold mempool_insert
  rw [hsig]
  simp only [hin, hmat, Bool.not_true, Bool.false_eq_true, if_false,
    bne_self_eq_false]
  by_cases hl : tx.lockHeight > chain.tipHeight + 1
  · simp only [if_pos hl]
    exact ⟨⟨fun _ => hl, fun _ => trivial⟩,
      ⟨fun hc => absurd hc (by decide), fun hc => absurd hc (by omega)⟩, hinv⟩
  · simp only [if_neg hl]
    refine ⟨⟨fun hc => absurd hc (by decide), fun hc => absurd hc (by omega)⟩,
      ⟨fun _ => by omega, fun _ => trivial⟩, ?_⟩
    intro t ht
    rcases List.mem_append.mp ht with ht | ht
    · exact hinv t ht
    · rcases List.mem_singleton.mp ht with rfl
      omega

/-- Witness for C3 (amended): at tip 1, an otherwise-valid transaction with
lock-height 2 is admitted to the Unconfirmed pool. -/
theorem mempool_insert_timelock_witness :
    (mempool_insert ⟨1, [(10, 0)]⟩ ⟨[], []⟩ ⟨2, [10], [21], 2, 20, 1⟩).1 =
      TxStorageResponse.UnconfirmedPool :=
  (mempool_insert_timelock ⟨1, [(10, 0)]⟩ ⟨[], []⟩ ⟨2, [10], [21], 2, 20, 1⟩
    (by decide) (by decide) (by decide)
    (by intro t ht; simp at ht)).2.1.mpr (by decide)

/-- A published transaction appears in the result's Reorg pool tagged with
the block height. -/
theorem ppb_published_mem (b : PublishedBlock) (st : MempoolState)
    (t : MempoolTx) (ht : t ∈ st.unconfirmed) (hpub : t.sig ∈ b.kernelSigs) :
    (t, b.height) ∈ (process_published_block b st).reorg := by
  simp only [process_published_block]
  refine List.mem_append.mpr (Or.inr ?_)
  refine List.mem_map.mpr ⟨t, List.mem_append.mpr (Or.inl ?_), rfl⟩
  exact List.mem_filter.mpr ⟨ht, by simpa using hpub⟩

/-- A double-spent transaction also appears in the result's Reorg pool
tagged with the block height. -/
theorem ppb_double_spent_mem (b : PublishedBlock) (st : MempoolState)
    (t : MempoolTx) (ht : t ∈ st.unconfirmed) (hnp : t.sig ∉ b.kernelSigs)
    (hds : ∃ i ∈ t.inputs, i ∈ b.spentInputs) :
    (t, b.height) ∈ (process_published_block b st).reorg := by
  simp only [process_published_block]
  refine List.mem_append.mpr (Or.inr ?_)
  refine List.mem_map.mpr ⟨t, List.mem_append.mpr (Or.inr ?_), rfl⟩
  refine List.mem_filter.mpr
    ⟨List.mem_filter.mpr ⟨ht, by simpa using hnp⟩, ?_⟩
  rcases hds with ⟨i, hi, hsp⟩
  rw [List.any_eq_true]
  exact ⟨i, hi, by simpa using hsp⟩

/-- No entry of the result's Unconfirmed pool carries a signature that the
block published. -/
theorem ppb_unconfirmed_no_published_sig (b : PublishedBlock)
    (st : MempoolState) (x : Nat) (hx : x ∈ b.kernelSigs) :
    ((process_published_block b st).unconfirmed.any
      (fun u => u.sig == x)) = false := by
  rw [List.any_eq_false]
  intro u hu
  simp only [process_published_block, List.mem_filter] at hu
  have hns : u.sig ∉ b.kernelSigs := by simpa using hu.1.2
  simp only [beq_iff_eq]
  intro hc
  exact hns (by rw [hc]; exact hx)

/-- A double-spent transaction's signature is absent from the result's
Unconfirmed pool (under the invariant that its signature identifies it). -/
theorem ppb_double_spent_gone (b : PublishedBlock) (st : MempoolState)
    (t : MempoolTx)
    (huniq : ∀ u ∈ st.unconfirmed, u.sig = t.sig → u = t)
    (hds : ∃ i ∈ t.inputs, i ∈ b.spentInputs) :
    ((process_published_block b st).unconfirmed.any
      (fun u => u.sig == t.sig)) = false := by
  rw [List.any_eq_false]
  intro u hu
  simp only [process_published_block, List.mem_filter] at hu
  simp only [beq_iff_eq]
  intro hc
  have hut : u = t := huniq u hu.1.1 hc
  rcases hds with ⟨i, hi, hsp⟩
  have h2 := hu.2
  rw [hut] at h2
  simp only [Bool.not_eq_true', List.any_eq_false] at h2
  have h3 := h2 i hi
  simp [hsp] at h3

/-- An Unconfirmed transaction the block does not touch stays in the
result's Unconfirmed pool. -/
theorem ppb_untouched_kept (b : PublishedBlock) (st : MempoolState)
    (t : MempoolTx) (ht : t ∈ st.unconfirmed) (hnp : t.sig ∉ b.kernelSigs)
    (hnds : ∀ i ∈ t.inputs, i ∉ b.spentInputs) :
    t ∈ (process_published_block b st).unconfirmed := by
  simp only [process_published_block]
  refine List.mem_filter.mpr ⟨List.mem_filter.mpr ⟨ht, by simpa using hnp⟩, ?_⟩
  simp only [Bool.not_eq_true', List.any_eq_false]
  intro i hi
  simpa using hnds i hi

/-- C4 counterexample: a block publishing signature 1 and spending input
commitment 21 is processed over an Unconfirmed pool holding transaction 2,
which spends input 21 and is not published. Afterwards transaction 2 has
storage status `ReorgPool` — the program moves double spends into the Reorg
pool (as pinned by `block_event_and_reorg_event_handling`,
`src/base_layer/core/tests/mempool.rs` lines 1185-1216) — refuting the
claim's "deletes (status NotStored afterwards)". -/
theorem process_published_block_double_spend_counterexample :
    has_tx_with_excess_sig
      (process_published_block ⟨5, [1], [21]⟩
        ⟨[⟨1, [10], [20], 0, 5, 1⟩, ⟨2, [21], [22], 0, 5, 1⟩], []⟩) 2 =
      TxStorageResponse.ReorgPool ∧
    TxStorageResponse.ReorgPool ≠ TxStorageResponse.NotStored := by decide

/-- C4 (amended): `process_published_block` moves every Unconfirmed entry
whose kernel excess signature appears in the block into the Reorg pool
(tagged with the block's height), moves every remaining Unconfirmed entry
with an input double-spent by the block out of Unconfirmed and into the
Reorg pool as well (its storage status becomes `ReorgPool`), and keeps
every Unconfirmed entry the block does not touch. The hypothesis is the
pool-state invariant that a kernel signature identifies at most one
Unconfirmed transaction. -/
theorem process_published_block_spec (b : PublishedBlock)
    (st : MempoolState) (t : MempoolTx)
    (ht : t ∈ st.unconfirmed)
    (huniq : ∀ u ∈ st.unconfirmed, u.sig = t.sig → u = t) :
    (t.sig ∈ b.kernelSigs →
      (t, b.height) ∈ (process_published_block b st).reorg ∧
      has_tx_with_excess_sig (process_published_block b st) t.sig =
        .ReorgPool) ∧
    (t.sig ∉ b.kernelSigs → (∃ i ∈ t.inputs, i ∈ b.spentInputs) →
      t ∉ (process_published_block b st).unconfirmed ∧
      (t, b.height) ∈ (process_published_block b st).reorg ∧
      has_tx_with_excess_sig (process_published_block b st) t.sig =
        .ReorgPool) ∧
    (t.sig ∉ b.kernelSigs → (∀ i ∈ t.inputs, i ∉ b.spentInputs) →
      t ∈ (process_published_block b st).unconfirmed) := by
  refine ⟨fun hpub => ⟨ppb_published_mem b st t ht hpub, ?_⟩,
    fun hnp hds => ?_, fun hnp hnds => ppb_untouched_kept b st t ht hnp hnds⟩
  · unfold has_tx_with_excess_sig
    rw [if_neg, if_pos]
    · rw [List.any_eq_true]
      exact ⟨(t, b.height), ppb_published_mem b st t ht hpub, by simp⟩
    · rw [ppb_unconfirmed_no_published_sig b st t.sig hpub]
      simp
  · have hgone := ppb_double_spent_gone b st t huniq hds
    refine ⟨fun hmem => (List.any_eq_false.mp hgone) t hmem (by simp),
      ppb_double_spent_mem b st t ht hnp hds, ?_⟩
    unfold has_tx_with_excess_sig
    rw [if_neg, if_pos]
    · rw [List.any_eq_true]
      exact ⟨(t, b.height), ppb_double_spent_mem b st t ht hnp hds, by simp⟩
    · rw [hgone]
      simp

/-- Witness for C4 (amended) at a concrete pool and block: transaction 2 is
double-spent by the published block, leaves the Unconfirmed pool and lands
in the Reorg pool with storage status `ReorgPool`. -/
theorem process_published_block_spec_witness :
    (⟨2, [21], [22], 0, 5, 1⟩ : MempoolTx) ∉
      (process_published_block ⟨5, [1], [21]⟩
        ⟨[⟨1, [10], [20], 0, 5, 1⟩, ⟨2, [21], [22], 0, 5, 1⟩,
          ⟨3, [23], [24], 0, 5, 1⟩], []⟩).unconfirmed ∧
    ((⟨2, [21], [22], 0, 5, 1⟩ : MempoolTx), 5) ∈
      (process_published_block ⟨5, [1], [21]⟩
        ⟨[⟨1, [10], [20], 0, 5, 1⟩, ⟨2, [21], [22], 0, 5, 1⟩,
          ⟨3, [23], [24], 0, 5, 1⟩], []⟩).reorg ∧
    has_tx_with_excess_sig
      (process_published_block ⟨5, [1], [21]⟩
        ⟨[⟨1, [10], [20], 0, 5, 1⟩, ⟨2, [21], [22], 0, 5, 1⟩,
          ⟨3, [23], [24], 0, 5, 1⟩], []⟩) 2 = .ReorgPool :=
  (process_published_block_spec ⟨5, [1], [21]⟩
    ⟨[⟨1, [10], [20], 0, 5, 1⟩, ⟨2, [21], [22], 0, 5, 1⟩,
      ⟨3, [23], [24], 0, 5, 1⟩], []⟩ ⟨2, [21], [22], 0, 5, 1⟩
    (by decide) (by decide)).2.1 (by decide) ⟨21, by decide, by decide⟩

/-- Dependency-closedness over an appended list splits into closedness of
the first part and closedness of the second under the extended context. -/
theorem depClosedB_append (pool : List PoolEntry) (l₁ : List Nat) :
    ∀ (sel l₂ : List Nat), depClosedB pool sel (l₁ ++ l₂) =
      (depClosedB pool sel l₁ && depClosedB pool (sel ++ l₁) l₂) := by
  induction l₁ with
  | nil => intro sel l₂; simp [depClosedB]
  | cons x xs ih =>
      intro sel l₂
      simp only [List.cons_append, depClosedB, List.append_eq, ih,
        Bool.and_assoc, List.append_assoc, List.singleton_append,
        List.nil_append]

/-- Soundness of the dependency-chain expansion: a successfully computed
chain is dependency-closed relative to the current selection, and every
requested target ends up selected. -/
theorem chainForList_sound (pool : List PoolEntry) :
    ∀ (fuel : Nat) (sel ts l : List Nat),
      chainForList pool fuel sel ts = some l →
      depClosedB pool sel l = true ∧ ∀ t ∈ ts, t ∈ sel ∨ t ∈ l := by
  intro fuel
  induction fuel with
  | zero =>
      intro sel ts l h
      simp [chainForList] at h
  | succ f ih =>
      intro sel ts l h
      match ts with
      | [] =>
          simp only [chainForList, Option.some.injEq] at h
          subst h
          exact ⟨rfl, by simp⟩
      | s :: rest =>
          rw [chainForList] at h
          by_cases hs : s ∈ sel
          · rw [if_pos hs] at h
            obtain ⟨h1, h2⟩ := ih sel rest l h
            refine ⟨h1, fun t htm => ?_⟩
            rcases List.mem_cons.mp htm with rfl | htm
            · exact Or.inl hs
            · exact h2 t htm
          · rw [if_neg hs] at h
            split at h
            · exact absurd h (by simp)
            · rename_i anc hanc
              split at h
              · exact absurd h (by simp)
              · rename_i more hmore
                simp only [Option.some.injEq] at h
                subst h
                obtain ⟨hanc1, hanc2⟩ := ih sel _ anc hanc
                obtain ⟨hmore1, hmore2⟩ := ih _ rest more hmore
                constructor
                · rw [show anc ++ s :: more = (anc ++ [s]) ++ more by
                    simp]
                  rw [depClosedB_append]
                  rw [depClosedB_append]
                  simp only [hanc1, Bool.true_and]
                  have hdc : depClosedB pool (sel ++ anc) [s] = true := by
                    simp only [depClosedB, Bool.and_true]
                    rw [List.all_eq_true]
                    intro d hd
                    rcases hanc2 d hd with hm | hm
                    · simp [List.mem_append, hm]
                    · simp [List.mem_append, hm]
                  rw [hdc, Bool.true_and]
                  rw [← List.append_assoc]
                  exact hmore1
                · intro t htm
                  rcases List.mem_cons.mp htm with rfl | htm
                  · exact Or.inr (by simp)
                  · rcases hmore2 t htm with hm | hm
                    · simp only [List.append_assoc, List.mem_append,
                        List.mem_singleton] at hm
                      rcases hm with hm | hm | hm
                      · exact Or.inl hm
                      · exact Or.inr (by simp [hm])
                      · exact Or.inr (by simp [hm])
                    · exact Or.inr (by simp [hm])

/-- In a dependency-closed list, every member's in-pool dependencies are in
the context or in the list itself. -/
theorem depClosedB_mem (pool : List PoolEntry) (l : List Nat) :
    ∀ sel, depClosedB pool sel l = true →
      ∀ x ∈ l, ∀ d ∈ inPoolDeps pool x, d ∈ sel ∨ d ∈ l := by
  induction l with
  | nil => intro sel _ x hx; exact absurd hx (by simp)
  | cons y ys ih =>
      intro sel h x hx d hd
      rw [depClosedB, Bool.and_eq_true] at h
      rcases List.mem_cons.mp hx with rfl | hx
      · have := List.all_eq_true.mp h.1 d hd
        exact Or.inl (by simpa using this)
      · rcases ih (sel ++ [y]) h.2 x hx d hd with hm | hm
        · rcases List.mem_append.mp hm with hm | hm
          · exact Or.inl hm
          · exact Or.inr (by simp [List.mem_singleton.mp hm])
        · exact Or.inr (List.mem_cons_of_mem y hm)

/-- The candidate loop preserves both retrieve invariants: selected weight
within the target, and dependency-closedness with parents first. -/
theorem retrieveGo_inv (pool : List PoolEntry) (target_weight : Nat) :
    ∀ (cs : List PoolEntry) (sel : List Nat),
      totalWeight pool sel ≤ target_weight →
      depClosedB pool [] sel = true →
      totalWeight pool (retrieveGo pool target_weight cs sel) ≤
        target_weight ∧
      depClosedB pool [] (retrieveGo pool target_weight cs sel) = true := by
  intro cs
  induction cs with
  | nil => intro sel h1 h2; exact ⟨h1, h2⟩
  | cons c rest ih =>
      intro sel h1 h2
      rw [retrieveGo]
      split
      · exact ih sel h1 h2
      · rename_i l hch
        by_cases hw : totalWeight pool (sel ++ l) ≤ target_weight
        · rw [if_pos hw]
          refine ih (sel ++ l) hw ?_
          rw [depClosedB_append]
          have hcl := (chainForList_sound pool _ _ _ _ hch).1
          simp only [h2, Bool.true_and, List.nil_append]
          exact hcl
        · rw [if_neg hw]
          exact ih sel h1 h2

/-- C5: for every target weight, `retrieve` returns a selection whose total
weight is at most the target and that is closed under in-pool dependencies
with every parent preceding its child; in particular a transaction with an
unselected in-pool dependency is never returned (dependency chains that
would overflow the target are skipped as a unit by construction of the
candidate loop). -/
theorem retrieve_weight_and_closure (pool : List PoolEntry)
    (target_weight : Nat) :
    totalWeight pool (retrieve pool target_weight) ≤ target_weight ∧
    depClosedB pool [] (retrieve pool target_weight) = true ∧
    ∀ x ∈ retrieve pool target_weight, ∀ d ∈ inPoolDeps pool x,
      d ∈ retrieve pool target_weight := by
  have h := retrieveGo_inv pool target_weight (prioSort pool) []
    (by simp [totalWeight]) rfl
  refine ⟨h.1, h.2, fun x hx d hd => ?_⟩
  have := depClosedB_mem pool _ [] h.2 x hx d hd
  simpa using this

/-- Witness for C5 at a three-transaction pool where transaction 2 spends an
output of transaction 1: since 2 is retrieved, its in-pool parent 1 is
retrieved as well. -/
theorem retrieve_weight_and_closure_witness :
    1 ∈ retrieve [⟨1, 10, 10, []⟩, ⟨2, 50, 10, [1]⟩, ⟨3, 20, 5, []⟩] 100 :=
  (retrieve_weight_and_closure
    [⟨1, 10, 10, []⟩, ⟨2, 50, 10, [1]⟩, ⟨3, 20, 5, []⟩] 100).2.2
    2 (by decide) 1 (by decide)

end Tari
